import Mathlib

/-!
Shallow embedding of the condition model and reference model of the
`reddit/achilles-sdk-api` Go repository (`api/conditions.go` and
`api/common.go`), with theorems checking the specification's claims.

Modelling choices:
* Go string-backed types (`ConditionType`, `ConditionReason`,
  `corev1.ConditionStatus`) are Lean `String`s.
* `metav1.Time` is an opaque timestamp, modelled as `Nat`; its Go zero
  value is `0`.  Condition constructors take the wall-clock reading
  (`metav1.Now()`) as an explicit `now` argument.
* Methods that mutate a `*ConditionedStatus` receiver are modelled as
  functions returning the new status value.
-/

/-- `metav1.Time`, modelled as an opaque timestamp. -/
abbrev MetaTime := Nat

/-- `corev1.ConditionStatus`: a string type whose values are
"True", "False" and "Unknown". -/
abbrev ConditionStatus := String

/-- `corev1.ConditionTrue`. -/
def ConditionTrue : ConditionStatus := "True"

/-- `corev1.ConditionFalse`. -/
def ConditionFalse : ConditionStatus := "False"

/-- `corev1.ConditionUnknown`. -/
def ConditionUnknown : ConditionStatus := "Unknown"

/-- `ConditionType` represents a condition a resource could be in (a string). -/
abbrev ConditionType := String

/-- `ConditionReason` represents the reason a resource is in a condition (a string). -/
abbrev ConditionReason := String

/-- `TypeReady`. -/
def TypeReady : ConditionType := "Ready"

/-- `TypeSynced`. -/
def TypeSynced : ConditionType := "Synced"

/-- `TypeReferencesValid`. -/
def TypeReferencesValid : ConditionType := "ReferencesValid"

/-- `ReasonReferencesExist`. -/
def ReasonReferencesExist : ConditionReason := "ReferencedObjectsExist"

/-- `ReasonReconcileError`. -/
def ReasonReconcileError : ConditionReason := "ReconcileError"

/-- A `Condition` that may apply to a resource.  Field names follow the
JSON tags of the Go struct (`Type` is a reserved token in Lean). -/
structure Condition where
  type : ConditionType
  status : ConditionStatus
  observedGeneration : Int
  lastTransitionTime : MetaTime
  reason : ConditionReason
  message : String
deriving Repr, DecidableEq, Inhabited

/-- `Condition.Equal`: true if the condition is identical to the supplied
condition, ignoring the LastTransitionTime. -/
def Condition.Equal (c other : Condition) : Bool :=
  c.type == other.type &&
    c.status == other.status &&
    c.reason == other.reason &&
    c.message == other.message &&
    c.observedGeneration == other.observedGeneration

/-- `Condition.WithMessage`: returns a condition by adding the provided
message to the existing condition (value receiver: the original is a copy). -/
def Condition.WithMessage (c : Condition) (msg : String) : Condition :=
  { c with message := msg }

/-- `Condition.IsEmpty`: true if the condition is empty. -/
def Condition.IsEmpty (c : Condition) : Bool :=
  c.type == "" &&
    c.status == "" &&
    c.reason == "" &&
    c.message == ""

/-- The tuple of fields that `Condition.Equal` compares (everything except
`lastTransitionTime`).  Proof-side only. -/
def Condition.key (c : Condition) :
    ConditionType × ConditionStatus × ConditionReason × String × Int :=
  (c.type, c.status, c.reason, c.message, c.observedGeneration)

/-- A `ConditionedStatus` holds the conditions of the resource. -/
structure ConditionedStatus where
  conditions : List Condition
deriving Repr, DecidableEq, Inhabited

/-- `GetConditions` returns the condition list. -/
def ConditionedStatus.GetConditions (s : ConditionedStatus) : List Condition :=
  s.conditions

/-- `GetCondition` returns the condition for the given `ConditionType` if it
exists, otherwise `Condition{Type: ct, Status: corev1.ConditionUnknown}`
(all remaining fields at their Go zero value). -/
def ConditionedStatus.GetCondition (s : ConditionedStatus) (ct : ConditionType) :
    Condition :=
  match s.conditions.find? (fun c => c.type == ct) with
  | some c => c
  | none =>
      { type := ct, status := ConditionUnknown, observedGeneration := 0,
        lastTransitionTime := 0, reason := "", message := "" }

/-- The body of the inner loop of `SetConditions` for one slot `existing` and
one supplied condition `nw`: the slot is overwritten with `nw` exactly when
the types match and the conditions are not `Equal`. -/
def applyCond (existing nw : Condition) : Condition :=
  if existing.type != nw.type then existing
  else if existing.Equal nw then existing
  else nw

/-- One iteration of the outer loop of `SetConditions`, processing a single
supplied condition `nw` against the current list.  The Go loop walks the
slice by index, overwriting matched slots in place and recording in `exists`
whether any slot had the same type; that is a pointwise `applyCond` map plus
an `any` check, with `nw` appended when no slot matched. -/
def setConditionsStep (conds : List Condition) (nw : Condition) : List Condition :=
  if conds.any (fun existing => existing.type == nw.type) then
    conds.map (fun existing => applyCond existing nw)
  else conds ++ [nw]

/-- `SetConditions` sets the supplied conditions, replacing any existing
conditions of the same type; a no-op for supplied conditions that are
`Equal` (ignoring last transition time) to the one already set. -/
def ConditionedStatus.SetConditions (s : ConditionedStatus) (c : List Condition) :
    ConditionedStatus :=
  ⟨c.foldl setConditionsStep s.conditions⟩

/-- `NewConditionedStatus` returns a status with the supplied conditions set. -/
def NewConditionedStatus (c : List Condition) : ConditionedStatus :=
  ConditionedStatus.SetConditions ⟨[]⟩ c

/-- The sort performed by `ConditionedStatus.Equal`:
`sort.Slice(sc, func(i, j int) bool { return sc[i].Type < sc[j].Type })`.
Modelled as a stable insertion sort by `Type` (Go's `sort.Slice` runs an
insertion sort at the condition-list sizes that arise here, which keeps
elements with equal types in their original order, and the specification
itself demands a stable sort). -/
def sortByType (l : List Condition) : List Condition :=
  List.insertionSort (fun a b => a.type ≤ b.type) l

/-- The pairwise comparison loop of `ConditionedStatus.Equal`: element-wise
`Condition.Equal` over two lists (of equal length at every call site). -/
def condListEqual : List Condition → List Condition → Bool
  | [], [] => true
  | a :: as, b :: bs => a.Equal b && condListEqual as bs
  | _, _ => false

/-- `ConditionedStatus.Equal`: true if the status is identical to the
supplied status, ignoring LastTransitionTimes and the order of conditions.
The Go receiver and argument are pointers; `none` models a nil pointer. -/
def ConditionedStatus.Equal (s other : Option ConditionedStatus) : Bool :=
  match s, other with
  | none, none => true
  | none, some _ => false
  | some _, none => false
  | some a, some b =>
      if b.conditions.length != a.conditions.length then false
      else condListEqual (sortByType a.conditions) (sortByType b.conditions)

/-- `client.ObjectKey` (= `types.NamespacedName`). -/
structure ObjectKey where
  Namespace : String
  Name : String
deriving Repr, DecidableEq, Inhabited

/-- `types.NamespacedName.String` from `k8s.io/apimachinery`:
namespace, `types.Separator` (`'/'`), name. -/
def ObjectKey.String (k : ObjectKey) : String :=
  k.Namespace ++ "/" ++ k.Name

/-- `ObjectRef` references a namespace-scoped object by name and namespace. -/
structure ObjectRef where
  Name : String
  Namespace : String
deriving Repr, DecidableEq, Inhabited

/-- `ObjectRef.ObjectKey` returns the `ObjectRef` as a `client.ObjectKey`. -/
def ObjectRef.ObjectKey (o : ObjectRef) : ObjectKey :=
  { Namespace := o.Namespace, Name := o.Name }

/-- `ClusterObjectRef` references an object by name, namespace, and cluster. -/
structure ClusterObjectRef where
  Name : String
  Namespace : String
  ClusterID : String
deriving Repr, DecidableEq, Inhabited

/-- `ClusterObjectRef.String`:
`strings.Join([]string{o.ClusterID, o.Namespace, o.Name}, string(types.Separator))`
with `types.Separator == '/'`. -/
def ClusterObjectRef.String (o : ClusterObjectRef) : String :=
  String.intercalate "/" [o.ClusterID, o.Namespace, o.Name]

/-- `schema.GroupVersionKind` from `k8s.io/apimachinery`. -/
structure GroupVersionKind where
  Group : String
  Version : String
  Kind : String
deriving Repr, DecidableEq, Inhabited

/-- `schema.GroupVersionKind.String` from `k8s.io/apimachinery`:
`gvk.Group + "/" + gvk.Version + ", Kind=" + gvk.Kind`. -/
def GroupVersionKind.String (gvk : GroupVersionKind) : String :=
  gvk.Group ++ "/" ++ gvk.Version ++ ", Kind=" ++ gvk.Kind

/-- `TypedObjectRef` references an object by name and namespace and includes
its Group, Version, and Kind. -/
structure TypedObjectRef where
  Group : String
  Version : String
  Kind : String
  Name : String
  Namespace : String
deriving Repr, DecidableEq, Inhabited

/-- `TypedObjectRef.GroupVersionKind`. -/
def TypedObjectRef.GroupVersionKind (t : TypedObjectRef) : GroupVersionKind :=
  { Group := t.Group, Version := t.Version, Kind := t.Kind }

/-- `TypedObjectRef.ObjectKey`. -/
def TypedObjectRef.ObjectKey (t : TypedObjectRef) : ObjectKey :=
  { Namespace := t.Namespace, Name := t.Name }

/-- `TypedObjectRef.ObjectKeyNotSet`. -/
def TypedObjectRef.ObjectKeyNotSet (t : TypedObjectRef) : Bool :=
  t.Name == "" && t.Namespace == ""

/-- `TypedObjectRef.String`: `fmt.Sprintf("%s: %s", t.GroupVersionKind(), t.ObjectKey())`,
where `%s` invokes the `String` methods of the two operands. -/
def TypedObjectRef.String (t : TypedObjectRef) : String :=
  t.GroupVersionKind.String ++ ": " ++ t.ObjectKey.String

/-- `ReconcileError` returns a condition indicating that an error was
encountered while reconciling the resource.  The Go function receives an
`error` and stores `err.Error()`; the embedding receives that text. -/
def ReconcileError (now : MetaTime) (err : String) : Condition :=
  { type := TypeSynced, status := ConditionFalse, lastTransitionTime := now,
    reason := ReasonReconcileError, message := err, observedGeneration := 0 }

/-- `ReferencesValid` returns a condition indicating that all object
references are valid. -/
def ReferencesValid (now : MetaTime) : Condition :=
  { type := TypeReferencesValid, lastTransitionTime := now,
    status := ConditionTrue, reason := ReasonReferencesExist,
    message := "All object references are valid.", observedGeneration := 0 }

/-- `ReferencesInvalid` returns a condition indicating that some object
references reference non-existent objects. -/
def ReferencesInvalid (now : MetaTime) (reason : ConditionReason)
    (missingRefs : List ObjectRef) : Condition :=
  let missingRefStrings := missingRefs.map (fun ref => ref.ObjectKey.String)
  { type := TypeReferencesValid, lastTransitionTime := now,
    status := ConditionFalse, reason := reason,
    message := "Referenced objects are not found: " ++
      String.intercalate ", " missingRefStrings,
    observedGeneration := 0 }

/-! ## Claims about the reference model and condition constructors -/

/-- **C6.** For every reason `r` and list of `ObjectRef`s,
`ReferencesInvalid(r, missingRefs)` returns a condition with type
`ReferencesValid`, status `False`, reason `r`, and message
`"Referenced objects are not found: "` followed by each missing ref's
`namespace/name` coordinate in the order given, joined by `", "`; in
particular `ReferencesInvalid("MissingDeps", [\x7bns1/foo\x7d, \x7bns1/bar\x7d])` yields
message `"Referenced objects are not found: ns1/foo, ns1/bar"`. -/
theorem claim_C6_ReferencesInvalid (now : MetaTime) (r : ConditionReason)
    (missingRefs : List ObjectRef) :
    (ReferencesInvalid now r missingRefs).type = TypeReferencesValid ∧
    (ReferencesInvalid now r missingRefs).status = ConditionFalse ∧
    (ReferencesInvalid now r missingRefs).reason = r ∧
    (ReferencesInvalid now r missingRefs).message =
      "Referenced objects are not found: " ++
        String.intercalate ", "
          (missingRefs.map (fun ref => ref.Namespace ++ "/" ++ ref.Name)) ∧
    (ReferencesInvalid 0 "MissingDeps"
        [{ Name := "foo", Namespace := "ns1" },
         { Name := "bar", Namespace := "ns1" }]).message =
      "Referenced objects are not found: ns1/foo, ns1/bar" := by
  refine ⟨rfl, rfl, rfl, ?_, by decide⟩
  simp [ReferencesInvalid, ObjectRef.ObjectKey, ObjectKey.String]

/-- **C7.** For every error text `err`, `ReconcileError(err)` returns a
condition with type `Synced`, status `False`, reason `ReconcileError`, and
message equal to `err`'s text; the function is total, and in particular
well-defined when `err`'s text is the empty string. -/
theorem claim_C7_ReconcileError (now : MetaTime) (err : String) :
    (ReconcileError now err).type = TypeSynced ∧
    (ReconcileError now err).status = ConditionFalse ∧
    (ReconcileError now err).reason = ReasonReconcileError ∧
    (ReconcileError now err).message = err ∧
    (ReconcileError now "").message = "" :=
  ⟨rfl, rfl, rfl, rfl, rfl⟩

/-- **C8.** For every `TypedObjectRef` `t`, `t.ObjectKeyNotSet()` is true iff
`t.Name == "" && t.Namespace == ""`, with Group, Version and Kind playing no
role; `TypedObjectRef\x7b\x7d.ObjectKeyNotSet()` is true and
`TypedObjectRef\x7bName: "x"\x7d.ObjectKeyNotSet()` is false. -/
theorem claim_C8_ObjectKeyNotSet (t : TypedObjectRef) (g v k : String) :
    (t.ObjectKeyNotSet = (t.Name == "" && t.Namespace == "")) ∧
    (TypedObjectRef.ObjectKeyNotSet { t with Group := g, Version := v, Kind := k }
      = t.ObjectKeyNotSet) ∧
    (TypedObjectRef.ObjectKeyNotSet
      { Group := "", Version := "", Kind := "", Name := "", Namespace := "" } = true) ∧
    (TypedObjectRef.ObjectKeyNotSet
      { Group := "", Version := "", Kind := "", Name := "x", Namespace := "" } = false) :=
  ⟨rfl, rfl, rfl, by decide⟩

/-- **C9.** For every `ClusterObjectRef` `c`, `c.String()` is ClusterID,
Namespace, Name joined in that order on `"/"`; for every `TypedObjectRef` `t`,
`t.String()` is the group/version-and-kind form, then `": "`, then the
namespace/name coordinate: `Group/Version, Kind=Kind: namespace/name`. -/
theorem claim_C9_refStrings (c : ClusterObjectRef) (t : TypedObjectRef) :
    c.String = c.ClusterID ++ "/" ++ c.Namespace ++ "/" ++ c.Name ∧
    t.String = t.Group ++ "/" ++ t.Version ++ ", Kind=" ++ t.Kind ++ ": " ++
      t.Namespace ++ "/" ++ t.Name := by
  constructor
  · rfl
  · simp only [TypedObjectRef.String, TypedObjectRef.GroupVersionKind,
      GroupVersionKind.String, TypedObjectRef.ObjectKey, ObjectKey.String,
      String.append_assoc]

/-- **C10.** For every condition `c` and string `msg`, `c.WithMessage(msg)`
has message `msg` and the same type, status, reason, observed generation and
last transition time as `c`; `c` itself (a by-value copy in Go, an immutable
value here) is unchanged. -/
theorem claim_C10_WithMessage (c : Condition) (msg : String) :
    (c.WithMessage msg).message = msg ∧
    (c.WithMessage msg).type = c.type ∧
    (c.WithMessage msg).status = c.status ∧
    (c.WithMessage msg).reason = c.reason ∧
    (c.WithMessage msg).observedGeneration = c.observedGeneration ∧
    (c.WithMessage msg).lastTransitionTime = c.lastTransitionTime :=
  ⟨rfl, rfl, rfl, rfl, rfl, rfl⟩

/-! ## Helper lemmas about `Condition.Equal` and `SetConditions` -/

/-- `NodupTypes l`: the documented invariant of `ConditionedStatus` — at most
one condition per `Type`. -/
def NodupTypes (l : List Condition) : Prop :=
  (l.map (fun c => c.type)).Nodup

instance (l : List Condition) : Decidable (NodupTypes l) := by
  unfold NodupTypes; infer_instance

theorem Condition.Equal_iff_key {c d : Condition} :
    c.Equal d = true ↔ c.key = d.key := by
  simp [Condition.Equal, Condition.key, Prod.ext_iff, and_assoc]

theorem Condition.Equal_refl (c : Condition) : c.Equal c = true := by
  simp [Condition.Equal]

theorem Condition.Equal_symm {c d : Condition} (h : c.Equal d = true) :
    d.Equal c = true := by
  rw [Condition.Equal_iff_key] at h ⊢; exact h.symm

theorem Condition.Equal_trans {c d e : Condition} (h₁ : c.Equal d = true)
    (h₂ : d.Equal e = true) : c.Equal e = true := by
  rw [Condition.Equal_iff_key] at h₁ h₂ ⊢; exact h₁.trans h₂

theorem Condition.type_eq_of_Equal {c d : Condition} (h : c.Equal d = true) :
    c.type = d.type := by
  rw [Condition.Equal_iff_key] at h
  exact congrArg (fun k => k.1) h

theorem applyCond_type (e nw : Condition) : (applyCond e nw).type = e.type := by
  unfold applyCond
  split
  · rfl
  · split
    · rfl
    · rename_i hne _
      simp only [bne_iff_ne, ne_eq, not_not, Bool.not_eq_true] at hne
      have : e.type = nw.type := by
        by_contra hc
        simp [bne_iff_ne, hc] at hne
      exact this.symm

theorem applyCond_of_type_ne {e nw : Condition} (h : e.type ≠ nw.type) :
    applyCond e nw = e := by
  simp [applyCond, bne_iff_ne, h]

theorem applyCond_of_Equal {e nw : Condition} (h : e.Equal nw = true) :
    applyCond e nw = e := by
  have ht : e.type = nw.type := Condition.type_eq_of_Equal h
  simp [applyCond, bne_iff_ne, ht, h]

theorem applyCond_of_ne {e nw : Condition} (ht : e.type = nw.type)
    (h : e.Equal nw = false) : applyCond e nw = nw := by
  simp [applyCond, bne_iff_ne, ht, h]

/-- Types of the list produced by one `SetConditions` iteration. -/
theorem setConditionsStep_types (conds : List Condition) (nw : Condition) :
    (setConditionsStep conds nw).map (fun c => c.type) =
      if nw.type ∈ conds.map (fun c => c.type) then conds.map (fun c => c.type)
      else conds.map (fun c => c.type) ++ [nw.type] := by
  by_cases h : nw.type ∈ conds.map (fun c => c.type)
  · have hany : (conds.any (fun existing => existing.type == nw.type)) = true := by
      simp only [List.any_eq_true]
      obtain ⟨e, he, hty⟩ := List.mem_map.mp h
      exact ⟨e, he, by simp [hty]⟩
    simp only [setConditionsStep, hany, if_true, if_pos h]
    simp [List.map_map, Function.comp_def, applyCond_type]
  · have hany : (conds.any (fun existing => existing.type == nw.type)) = false := by
      simp only [List.any_eq_false]
      intro e he
      simp only [beq_iff_eq]
      intro hte
      exact h (List.mem_map.mpr ⟨e, he, hte⟩)
    have hnotex : ¬ ∃ a ∈ conds, a.type = nw.type := by
      rintro ⟨a, ha, hat⟩
      exact h (List.mem_map.mpr ⟨a, ha, hat⟩)
    simp [setConditionsStep, hany, if_neg h, hnotex]

/-- One `SetConditions` iteration preserves the at-most-one-per-type invariant. -/
theorem setConditionsStep_nodup {conds : List Condition} (nw : Condition)
    (h : NodupTypes conds) : NodupTypes (setConditionsStep conds nw) := by
  unfold NodupTypes at h ⊢
  rw [setConditionsStep_types]
  by_cases hm : nw.type ∈ conds.map (fun c => c.type)
  · simpa [hm] using h
  · simp only [if_neg hm]
    simp [List.nodup_append, h, hm]

/-- The whole `SetConditions` fold preserves the invariant. -/
theorem setConditions_fold_nodup (cs : List Condition) :
    ∀ conds : List Condition, NodupTypes conds →
      NodupTypes (cs.foldl setConditionsStep conds) := by
  induction cs with
  | nil => intro conds h; exact h
  | cons c rest ih =>
      intro conds h
      exact ih _ (setConditionsStep_nodup c h)

/-- Two members of a list with `NodupTypes` sharing a type are the same entry. -/
theorem NodupTypes.eq_of_type_eq {l : List Condition} (h : NodupTypes l)
    {a b : Condition} (ha : a ∈ l) (hb : b ∈ l) (ht : a.type = b.type) :
    a = b :=
  List.inj_on_of_nodup_map h ha hb ht

/-! ## Claims C1–C3 -/

/-- **C1.** For every status `s` (satisfying the documented at-most-one-per-type
invariant) and condition `c` passed to `SetConditions`: if no condition of
`c`'s type is held, `c` is appended; if the held condition of `c`'s type is
not `Equal` to `c`, that entry is replaced by `c` in place; if the held
condition is `Equal` to `c`, the status — including that entry's
`LastTransitionTime` — is left completely untouched. -/
theorem claim_C1_SetConditions_single (s : ConditionedStatus) (c : Condition)
    (hnd : NodupTypes s.conditions) :
    ((∀ e ∈ s.conditions, e.type ≠ c.type) →
        s.SetConditions [c] = ⟨s.conditions ++ [c]⟩) ∧
    (∀ h ∈ s.conditions, h.type = c.type → h.Equal c = false →
        (s.SetConditions [c]).conditions =
          s.conditions.map (fun e => if e.type = c.type then c else e)) ∧
    (∀ h ∈ s.conditions, h.type = c.type → h.Equal c = true →
        s.SetConditions [c] = s) := by
  have hfold : (s.SetConditions [c]).conditions = setConditionsStep s.conditions c :=
    rfl
  refine ⟨?_, ?_, ?_⟩
  · intro habs
    have hany : (s.conditions.any (fun existing => existing.type == c.type)) = false := by
      simp only [List.any_eq_false]
      intro e he
      simpa using habs e he
    have hstep : setConditionsStep s.conditions c = s.conditions ++ [c] := by
      simp [setConditionsStep, hany]
    have hrep : s.SetConditions [c] = ⟨setConditionsStep s.conditions c⟩ := rfl
    rw [hrep, hstep]
  · intro h hmem hty hne
    have hany : (s.conditions.any (fun existing => existing.type == c.type)) = true := by
      simp only [List.any_eq_true]
      exact ⟨h, hmem, by simp [hty]⟩
    rw [hfold]
    simp only [setConditionsStep, hany, if_pos]
    apply List.map_congr_left
    intro e he
    by_cases hety : e.type = c.type
    · have : e = h := hnd.eq_of_type_eq he hmem (hety.trans hty.symm)
      rw [if_pos hety, this, applyCond_of_ne hty hne]
    · rw [applyCond_of_type_ne hety, if_neg hety]
  · intro h hmem hty heq
    have hany : (s.conditions.any (fun existing => existing.type == c.type)) = true := by
      simp only [List.any_eq_true]
      exact ⟨h, hmem, by simp [hty]⟩
    have : (s.SetConditions [c]).conditions = s.conditions := by
      rw [hfold]
      simp only [setConditionsStep, hany, if_pos]
      have : s.conditions.map (fun existing => applyCond existing c) =
          s.conditions.map (fun e => e) := by
        apply List.map_congr_left
        intro e he
        by_cases hety : e.type = c.type
        · have he_eq : e = h := hnd.eq_of_type_eq he hmem (hety.trans hty.symm)
          rw [he_eq, applyCond_of_Equal heq]
        · exact applyCond_of_type_ne hety
      simpa using this
    cases s with
    | mk conds => exact congrArg ConditionedStatus.mk this

/-- Witness for C1 at concrete inputs: a status holding one `Ready` condition,
updated with a `Ready` condition that differs only in its timestamp, is left
byte-for-byte untouched. -/
theorem claim_C1_witness :
    NodupTypes [Condition.mk "Ready" "True" 0 5 "Available" ""] ∧
    ConditionedStatus.SetConditions ⟨[Condition.mk "Ready" "True" 0 5 "Available" ""]⟩
        [Condition.mk "Ready" "True" 0 9 "Available" ""] =
      ⟨[Condition.mk "Ready" "True" 0 5 "Available" ""]⟩ := by
  refine ⟨by decide, ?_⟩
  exact (claim_C1_SetConditions_single
      ⟨[Condition.mk "Ready" "True" 0 5 "Available" ""]⟩
      (Condition.mk "Ready" "True" 0 9 "Available" "") (by decide)).2.2
    (Condition.mk "Ready" "True" 0 5 "Available" "") (by decide) (by decide) (by decide)

/-- **C2.** `SetConditions` preserves the at-most-one-condition-per-type
invariant, for any argument list (repeated types included), and
`NewConditionedStatus` always produces a status satisfying it. -/
theorem claim_C2_nodup_invariant (s : ConditionedStatus) (cs : List Condition) :
    (NodupTypes s.conditions → NodupTypes (s.SetConditions cs).conditions) ∧
    NodupTypes (NewConditionedStatus cs).conditions := by
  constructor
  · intro h
    exact setConditions_fold_nodup cs s.conditions h
  · exact setConditions_fold_nodup cs [] (by simp [NodupTypes])

/-- Witness for C2 at concrete inputs: setting two conditions that share type
`Ready` onto a status already holding `Ready` and `Synced` conditions keeps
the invariant. -/
theorem claim_C2_witness :
    NodupTypes (ConditionedStatus.SetConditions
      ⟨[Condition.mk "Ready" "False" 0 1 "Creating" "",
        Condition.mk "Synced" "True" 0 1 "ReconcileSuccess" ""]⟩
      [Condition.mk "Ready" "True" 0 2 "Available" "",
       Condition.mk "Ready" "False" 0 3 "Deleting" ""]).conditions :=
  (claim_C2_nodup_invariant
    ⟨[Condition.mk "Ready" "False" 0 1 "Creating" "",
      Condition.mk "Synced" "True" 0 1 "ReconcileSuccess" ""]⟩
    [Condition.mk "Ready" "True" 0 2 "Available" "",
     Condition.mk "Ready" "False" 0 3 "Deleting" ""]).1 (by decide)

/-- **C3.** `GetCondition` on an absent type returns exactly
`Condition\x7bType: t, Status: Unknown\x7d` with every other field at its zero
value; that sentinel is not `IsEmpty` (its status is set), while the
zero-value condition is; and for a present type (under the documented
invariant) `GetCondition` returns the stored condition. -/
theorem claim_C3_GetCondition (s : ConditionedStatus) (t : ConditionType) :
    ((∀ e ∈ s.conditions, e.type ≠ t) →
        s.GetCondition t =
          { type := t, status := ConditionUnknown, observedGeneration := 0,
            lastTransitionTime := 0, reason := "", message := "" } ∧
        (s.GetCondition t).IsEmpty = false) ∧
    Condition.IsEmpty
      { type := "", status := "", observedGeneration := 0,
        lastTransitionTime := 0, reason := "", message := "" } = true ∧
    (∀ e ∈ s.conditions, e.type = t → NodupTypes s.conditions →
        s.GetCondition t = e) := by
  refine ⟨?_, by decide, ?_⟩
  · intro habs
    have hfind : s.conditions.find? (fun c => c.type == t) = none := by
      rw [List.find?_eq_none]
      intro e he
      simpa using habs e he
    have hget : s.GetCondition t =
        { type := t, status := ConditionUnknown, observedGeneration := 0,
          lastTransitionTime := 0, reason := "", message := "" } := by
      unfold ConditionedStatus.GetCondition
      rw [hfind]
    refine ⟨hget, ?_⟩
    rw [hget]
    simp [Condition.IsEmpty, ConditionUnknown]
  · intro e he hty hnd
    have hsome : (s.conditions.find? (fun c => c.type == t)).isSome := by
      rw [List.find?_isSome]
      exact ⟨e, he, by simp [hty]⟩
    obtain ⟨f, hf⟩ := Option.isSome_iff_exists.mp hsome
    have hfe : f = e := by
      have hptype : f.type = t := by simpa using List.find?_some hf
      exact hnd.eq_of_type_eq (List.mem_of_find?_eq_some hf) he (hptype.trans hty.symm)
    unfold ConditionedStatus.GetCondition
    rw [hf, hfe]

/-- Witness for C3 at concrete inputs: on a status holding only a `Ready`
condition, looking up `Synced` yields the Unknown sentinel (not `IsEmpty`),
and looking up `Ready` yields the stored entry. -/
theorem claim_C3_witness :
    (ConditionedStatus.GetCondition ⟨[Condition.mk "Ready" "True" 0 4 "Available" ""]⟩
        "Synced" = Condition.mk "Synced" "Unknown" 0 0 "" "") ∧
    (ConditionedStatus.GetCondition ⟨[Condition.mk "Ready" "True" 0 4 "Available" ""]⟩
        "Ready" = Condition.mk "Ready" "True" 0 4 "Available" "") := by
  constructor
  · exact ((claim_C3_GetCondition ⟨[Condition.mk "Ready" "True" 0 4 "Available" ""]⟩
      "Synced").1 (by decide)).1
  · exact (claim_C3_GetCondition ⟨[Condition.mk "Ready" "True" 0 4 "Available" ""]⟩
      "Ready").2.2 (Condition.mk "Ready" "True" 0 4 "Available" "")
      (by decide) (by decide) (by decide)

/-! ## Characterization of the `SetConditions` fold

Each slot of the condition list evolves independently: a slot holding `e` is
visited by every supplied condition in order, and is overwritten exactly when
the types match and the values are not `Equal` (`applyCond`).  Conditions of
a type not yet present are appended at their first occurrence and then evolve
the same way under the remaining supplied conditions. -/

/-- Evolution of one slot under a list of supplied conditions. -/
def chainApply (e : Condition) (cs : List Condition) : Condition :=
  cs.foldl applyCond e

/-- The conditions appended by `SetConditions`: first occurrences of types
not in `ts`, each evolved under the rest of the supplied list. -/
def appendedNew (ts : List ConditionType) : List Condition → List Condition
  | [] => []
  | c :: rest =>
      if c.type ∈ ts then appendedNew ts rest
      else chainApply c rest :: appendedNew (ts ++ [c.type]) rest

/-- The last condition of type `t` in a list, if any. -/
def lastOfType (t : ConditionType) : List Condition → Option Condition
  | [] => none
  | c :: rest =>
      match lastOfType t rest with
      | some d => some d
      | none => if c.type = t then some c else none

theorem chainApply_nil (e : Condition) : chainApply e [] = e := rfl

theorem chainApply_cons (e c : Condition) (cs : List Condition) :
    chainApply e (c :: cs) = chainApply (applyCond e c) cs := rfl

theorem chainApply_type (cs : List Condition) :
    ∀ e : Condition, (chainApply e cs).type = e.type := by
  induction cs with
  | nil => intro e; rfl
  | cons c rest ih =>
      intro e
      rw [chainApply_cons, ih, applyCond_type]

theorem chainApply_of_no_type {cs : List Condition} {e : Condition}
    (h : ∀ c ∈ cs, c.type ≠ e.type) : chainApply e cs = e := by
  induction cs with
  | nil => rfl
  | cons c rest ih =>
      rw [chainApply_cons,
        applyCond_of_type_ne (fun hc => h c (List.mem_cons_self c rest) hc.symm)]
      exact ih (fun d hd => h d (List.mem_cons_of_mem c hd))

theorem chainApply_mem (cs : List Condition) :
    ∀ e : Condition, chainApply e cs ∈ e :: cs := by
  induction cs with
  | nil => intro e; simp [chainApply_nil]
  | cons c rest ih =>
      intro e
      rw [chainApply_cons]
      have := ih (applyCond e c)
      rcases List.mem_cons.mp this with h | h
      · rw [h]
        unfold applyCond
        split
        · exact List.mem_cons_self e _
        · split
          · exact List.mem_cons_self e _
          · exact List.mem_cons_of_mem e (List.mem_cons_self c rest)
      · exact List.mem_cons_of_mem e (List.mem_cons_of_mem c h)

/-- Coupling: slots holding `Equal` values make identical decisions, so they
either both survive untouched or collapse to the same value. -/
theorem chainApply_coupling :
    ∀ (w : List Condition) {u v : Condition}, u.Equal v = true →
      chainApply u w = chainApply v w ∨ (chainApply u w = u ∧ chainApply v w = v) := by
  intro w
  induction w with
  | nil => intro u v _; exact Or.inr ⟨rfl, rfl⟩
  | cons d w ih =>
      intro u v huv
      have htype : u.type = v.type := Condition.type_eq_of_Equal huv
      by_cases hud : u.type = d.type
      · by_cases hue : u.Equal d = true
        · have hve : v.Equal d = true :=
            Condition.Equal_trans (Condition.Equal_symm huv) hue
          rw [chainApply_cons, chainApply_cons, applyCond_of_Equal hue,
            applyCond_of_Equal hve]
          exact ih huv
        · have hve : v.Equal d = false := by
            by_contra hc
            simp only [Bool.not_eq_false] at hc
            exact absurd (Condition.Equal_trans huv hc) (by simp [hue])
          rw [chainApply_cons, chainApply_cons,
            applyCond_of_ne hud (by simpa using hue),
            applyCond_of_ne (htype ▸ hud) hve]
          exact Or.inl rfl
      · rw [chainApply_cons, chainApply_cons, applyCond_of_type_ne hud,
          applyCond_of_type_ne (htype ▸ hud)]
        exact ih huv

/-- Per-slot idempotence: re-running the whole supplied list over a slot that
already went through it changes nothing. -/
theorem chainApply_idem :
    ∀ (w : List Condition) (x : Condition), chainApply (chainApply x w) w = chainApply x w := by
  intro w
  induction w with
  | nil => intro x; rfl
  | cons c w ih =>
      intro x
      rw [chainApply_cons x, chainApply_cons (chainApply (applyCond x c) w)]
      by_cases hty : (chainApply (applyCond x c) w).type = c.type
      · by_cases heq : (chainApply (applyCond x c) w).Equal c = true
        · rw [applyCond_of_Equal heq]
          exact ih (applyCond x c)
        · rw [applyCond_of_ne hty (by simpa using heq)]
          have hxc : x.type = c.type := by
            rw [chainApply_type, applyCond_type] at hty
            exact hty
          have hax : (applyCond x c).Equal c = true := by
            unfold applyCond
            by_cases hxe : x.Equal c = true
            · simp [bne_iff_ne, hxc, hxe]
            · simp [bne_iff_ne, hxc, hxe, Condition.Equal_refl]
          rcases chainApply_coupling w hax with h | ⟨h₁, h₂⟩
          · exact h.symm
          · exact absurd (h₁ ▸ hax) (by simpa using heq)
      · rw [applyCond_of_type_ne hty]
        exact ih (applyCond x c)

/-- Characterization of the `SetConditions` fold: every prior slot evolves
pointwise, and first occurrences of new types are appended, evolved under the
remaining supplied conditions. -/
theorem setConditions_foldl_eq :
    ∀ (cs : List Condition) (conds : List Condition),
      cs.foldl setConditionsStep conds =
        conds.map (fun e => chainApply e cs) ++
          appendedNew (conds.map (fun c => c.type)) cs := by
  intro cs
  induction cs with
  | nil =>
      intro conds
      simp [appendedNew, chainApply_nil]
  | cons c rest ih =>
      intro conds
      rw [List.foldl_cons]
      by_cases hmem : c.type ∈ conds.map (fun x => x.type)
      · have hany : (conds.any (fun existing => existing.type == c.type)) = true := by
          simp only [List.any_eq_true]
          obtain ⟨e, he, hty⟩ := List.mem_map.mp hmem
          exact ⟨e, he, by simp [hty]⟩
        have hstep : setConditionsStep conds c =
            conds.map (fun existing => applyCond existing c) := by
          simp [setConditionsStep, hany]
        rw [hstep, ih, List.map_map, List.map_map]
        have h₁ : ((fun e => chainApply e rest) ∘ fun existing => applyCond existing c)
            = fun e => chainApply e (c :: rest) := by
          funext e
          simp [Function.comp_def, chainApply_cons]
        have h₂ : ((fun x => x.type) ∘ fun existing => applyCond existing c)
            = fun x => x.type := by
          funext e
          simp [Function.comp_def, applyCond_type]
        rw [h₁, h₂]
        have h₃ : appendedNew (conds.map (fun x => x.type)) (c :: rest) =
            appendedNew (conds.map (fun x => x.type)) rest := by
          simp [appendedNew, hmem]
        rw [h₃]
      · have hany : (conds.any (fun existing => existing.type == c.type)) = false := by
          simp only [List.any_eq_false]
          intro e he
          simp only [beq_iff_eq]
          intro hte
          exact hmem (List.mem_map.mpr ⟨e, he, hte⟩)
        have hstep : setConditionsStep conds c = conds ++ [c] := by
          simp [setConditionsStep, hany]
        rw [hstep, ih, List.map_append, List.map_append]
        have h₁ : conds.map (fun e => chainApply e rest) =
            conds.map (fun e => chainApply e (c :: rest)) := by
          apply List.map_congr_left
          intro e he
          have : e.type ≠ c.type := fun hc => hmem (List.mem_map.mpr ⟨e, he, hc⟩)
          rw [chainApply_cons, applyCond_of_type_ne this]
        have h₂ : appendedNew (conds.map (fun x => x.type)) (c :: rest) =
            chainApply c rest :: appendedNew (conds.map (fun x => x.type) ++ [c.type]) rest := by
          simp [appendedNew, hmem]
        rw [h₁, h₂]
        simp [List.append_assoc]

theorem appendedNew_props :
    ∀ (cs : List Condition) (ts : List ConditionType),
      ∀ y ∈ appendedNew ts cs, chainApply y cs = y ∧ y.type ∉ ts := by
  intro cs
  induction cs with
  | nil => intro ts y hy; simp [appendedNew] at hy
  | cons c rest ih =>
      intro ts y hy
      by_cases hmem : c.type ∈ ts
      · rw [show appendedNew ts (c :: rest) = appendedNew ts rest by
          simp [appendedNew, hmem]] at hy
        obtain ⟨hfix, hnot⟩ := ih ts y hy
        have hne : y.type ≠ c.type := fun hc => hnot (hc ▸ hmem)
        exact ⟨by rw [chainApply_cons, applyCond_of_type_ne hne, hfix], hnot⟩
      · rw [show appendedNew ts (c :: rest) =
            chainApply c rest :: appendedNew (ts ++ [c.type]) rest by
          simp [appendedNew, hmem]] at hy
        rcases List.mem_cons.mp hy with hy | hy
        · subst hy
          refine ⟨?_, by rw [chainApply_type]; exact hmem⟩
          rw [chainApply_cons]
          by_cases heq : (chainApply c rest).Equal c = true
          · rw [applyCond_of_Equal heq]
            exact chainApply_idem rest c
          · rw [applyCond_of_ne (by rw [chainApply_type]) (by simpa using heq)]
        · obtain ⟨hfix, hnot⟩ := ih (ts ++ [c.type]) y hy
          have hne : y.type ≠ c.type := by
            intro hc
            exact hnot (List.mem_append.mpr (Or.inr (by simp [hc])))
          refine ⟨by rw [chainApply_cons, applyCond_of_type_ne hne, hfix], ?_⟩
          intro hts
          exact hnot (List.mem_append.mpr (Or.inl hts))

theorem appendedNew_mem :
    ∀ (cs : List Condition) (ts : List ConditionType),
      ∀ y ∈ appendedNew ts cs, y ∈ cs := by
  intro cs
  induction cs with
  | nil => intro ts y hy; simp [appendedNew] at hy
  | cons c rest ih =>
      intro ts y hy
      by_cases hmem : c.type ∈ ts
      · rw [show appendedNew ts (c :: rest) = appendedNew ts rest by
          simp [appendedNew, hmem]] at hy
        exact List.mem_cons_of_mem c (ih ts y hy)
      · rw [show appendedNew ts (c :: rest) =
            chainApply c rest :: appendedNew (ts ++ [c.type]) rest by
          simp [appendedNew, hmem]] at hy
        rcases List.mem_cons.mp hy with hy | hy
        · exact hy ▸ chainApply_mem rest c
        · exact List.mem_cons_of_mem c (ih (ts ++ [c.type]) y hy)

theorem mem_types_appendedNew :
    ∀ (cs : List Condition) (ts : List ConditionType) (c : Condition), c ∈ cs →
      c.type ∈ ts ∨ c.type ∈ (appendedNew ts cs).map (fun x => x.type) := by
  intro cs
  induction cs with
  | nil => intro ts c hc; simp at hc
  | cons d rest ih =>
      intro ts c hc
      by_cases hmem : d.type ∈ ts
      · rw [show appendedNew ts (d :: rest) = appendedNew ts rest by
          simp [appendedNew, hmem]]
        rcases List.mem_cons.mp hc with hc | hc
        · exact Or.inl (hc ▸ hmem)
        · exact ih ts c hc
      · rw [show appendedNew ts (d :: rest) =
            chainApply d rest :: appendedNew (ts ++ [d.type]) rest by
          simp [appendedNew, hmem]]
        rcases List.mem_cons.mp hc with hc | hc
        · subst hc
          exact Or.inr (by simp [chainApply_type])
        · rcases ih (ts ++ [d.type]) c hc with h | h
          · rcases List.mem_append.mp h with h | h
            · exact Or.inl h
            · refine Or.inr ?_
              simp only [List.mem_singleton] at h
              simp [h, chainApply_type]
          · exact Or.inr (by simp only [List.map_cons, List.mem_cons]; exact Or.inr h)

theorem appendedNew_nil_of_covered :
    ∀ (cs : List Condition) (ts : List ConditionType),
      (∀ c ∈ cs, c.type ∈ ts) → appendedNew ts cs = [] := by
  intro cs
  induction cs with
  | nil => intro ts _; rfl
  | cons c rest ih =>
      intro ts h
      have hc : c.type ∈ ts := h c (List.mem_cons_self c rest)
      rw [show appendedNew ts (c :: rest) = appendedNew ts rest by
        simp [appendedNew, hc]]
      exact ih ts (fun d hd => h d (List.mem_cons_of_mem c hd))

theorem lastOfType_eq_none_iff (t : ConditionType) :
    ∀ cs : List Condition, lastOfType t cs = none ↔ ∀ c ∈ cs, c.type ≠ t := by
  intro cs
  induction cs with
  | nil => simp [lastOfType]
  | cons c rest ih =>
      unfold lastOfType
      cases hrest : lastOfType t rest with
      | some d =>
          simp only [hrest]
          constructor
          · intro h; exact absurd h (by simp)
          · intro h
            have := (ih.mpr (fun e he => h e (List.mem_cons_of_mem c he)))
            rw [this] at hrest
            exact absurd hrest (by simp)
      | none =>
          simp only [hrest]
          constructor
          · intro h e he
            rcases List.mem_cons.mp he with he | he
            · subst he
              intro hc
              rw [if_pos hc] at h
              exact absurd h (by simp)
            · exact (ih.mp hrest) e he
          · intro h
            rw [if_neg (h c (List.mem_cons_self c rest))]

theorem lastOfType_mem {t : ConditionType} :
    ∀ {cs : List Condition} {d : Condition}, lastOfType t cs = some d →
      d ∈ cs ∧ d.type = t := by
  intro cs
  induction cs with
  | nil => intro d h; simp [lastOfType] at h
  | cons c rest ih =>
      intro d h
      unfold lastOfType at h
      cases hrest : lastOfType t rest with
      | some e =>
          rw [hrest] at h
          obtain ⟨hm, ht⟩ := ih hrest
          cases h
          exact ⟨List.mem_cons_of_mem c hm, ht⟩
      | none =>
          rw [hrest] at h
          by_cases hc : c.type = t
          · rw [if_pos hc] at h
            cases h
            exact ⟨List.mem_cons_self c rest, hc⟩
          · rw [if_neg hc] at h
            exact absurd h (by simp)

/-- Any slot of type `t` ends up `Equal` to the last supplied condition of
type `t`. -/
theorem chainApply_Equal_last {t : ConditionType} :
    ∀ (cs : List Condition) {d : Condition}, lastOfType t cs = some d →
      ∀ {x : Condition}, x.type = t → (chainApply x cs).Equal d = true := by
  intro cs
  induction cs with
  | nil => intro d h; simp [lastOfType] at h
  | cons c rest ih =>
      intro d h x hx
      rw [chainApply_cons]
      unfold lastOfType at h
      cases hrest : lastOfType t rest with
      | some e =>
          rw [hrest] at h
          cases h
          exact ih hrest (by rw [applyCond_type, hx])
      | none =>
          rw [hrest] at h
          by_cases hc : c.type = t
          · rw [if_pos hc] at h
            cases h
            have hnone : ∀ e ∈ rest, e.type ≠ t := (lastOfType_eq_none_iff t rest).mp hrest
            have hfix : chainApply (applyCond x c) rest = applyCond x c :=
              chainApply_of_no_type (by
                intro e he
                rw [applyCond_type, hx]
                exact hnone e he)
            rw [hfix]
            unfold applyCond
            rw [if_neg (by simp [bne_iff_ne, hx.trans hc.symm])]
            by_cases hxe : x.Equal c = true
            · rw [if_pos hxe]; exact hxe
            · rw [if_neg hxe]; exact Condition.Equal_refl c
          · rw [if_neg hc] at h
            exact absurd h (by simp)

/-- Appended entries of type `t` are likewise `Equal` to the last supplied
condition of their type. -/
theorem appendedNew_Equal_last :
    ∀ (cs : List Condition) (ts : List ConditionType), ∀ y ∈ appendedNew ts cs,
      ∀ {d : Condition}, lastOfType y.type cs = some d → y.Equal d = true := by
  intro cs
  induction cs with
  | nil => intro ts y hy; simp [appendedNew] at hy
  | cons c rest ih =>
      intro ts y hy d hd
      by_cases hmem : c.type ∈ ts
      · rw [show appendedNew ts (c :: rest) = appendedNew ts rest by
          simp [appendedNew, hmem]] at hy
        have hnot : y.type ∉ ts := (appendedNew_props rest ts y hy).2
        have hne : c.type ≠ y.type := fun hc => hnot (hc ▸ hmem)
        unfold lastOfType at hd
        cases hrest : lastOfType y.type rest with
        | some e =>
            rw [hrest] at hd
            cases hd
            exact ih ts y hy hrest
        | none =>
            rw [hrest, if_neg hne] at hd
            exact absurd hd (by simp)
      · rw [show appendedNew ts (c :: rest) =
            chainApply c rest :: appendedNew (ts ++ [c.type]) rest by
          simp [appendedNew, hmem]] at hy
        rcases List.mem_cons.mp hy with hy | hy
        · subst hy
          have hty : (chainApply c rest).type = c.type := chainApply_type rest c
          unfold lastOfType at hd
          cases hrest : lastOfType (chainApply c rest).type rest with
          | some e =>
              rw [hrest] at hd
              cases hd
              rw [hty] at hrest
              exact chainApply_Equal_last rest hrest rfl
          | none =>
              rw [hrest, if_pos hty.symm] at hd
              cases hd
              have : chainApply c rest = c :=
                chainApply_of_no_type (by
                  intro e he
                  have := (lastOfType_eq_none_iff _ rest).mp hrest e he
                  rw [hty] at this
                  exact this)
              rw [this]
              exact Condition.Equal_refl c
        · have hnot : y.type ∉ ts ++ [c.type] :=
            (appendedNew_props rest (ts ++ [c.type]) y hy).2
          have hne : c.type ≠ y.type := by
            intro hc
            exact hnot (List.mem_append.mpr (Or.inr (by simp [hc])))
          unfold lastOfType at hd
          cases hrest : lastOfType y.type rest with
          | some e =>
              rw [hrest] at hd
              cases hd
              exact ih (ts ++ [c.type]) y hy hrest
          | none =>
              rw [hrest, if_neg hne] at hd
              exact absurd hd (by simp)

/-- Types of the slot-evolution part of the characterization. -/
theorem types_map_chainApply (conds cs : List Condition) :
    (conds.map (fun e => chainApply e cs)).map (fun x => x.type) =
      conds.map (fun x => x.type) := by
  rw [List.map_map]
  apply List.map_congr_left
  intro e _
  simp [Function.comp_def, chainApply_type]

/-- Running the `SetConditions` fold a second time with the same supplied
list is a no-op, exactly (timestamps included). -/
theorem setConditionsFold_idem (cs conds : List Condition) :
    cs.foldl setConditionsStep (cs.foldl setConditionsStep conds) =
      cs.foldl setConditionsStep conds := by
  have hchar := setConditions_foldl_eq cs conds
  rw [setConditions_foldl_eq cs (cs.foldl setConditionsStep conds)]
  have hcover : ∀ c ∈ cs,
      c.type ∈ (cs.foldl setConditionsStep conds).map (fun x => x.type) := by
    intro c hc
    rw [hchar, List.map_append, types_map_chainApply]
    rcases mem_types_appendedNew cs (conds.map (fun x => x.type)) c hc with h | h
    · exact List.mem_append.mpr (Or.inl h)
    · exact List.mem_append.mpr (Or.inr h)
  rw [appendedNew_nil_of_covered cs _ hcover, List.append_nil]
  have hfix : ∀ r ∈ cs.foldl setConditionsStep conds, chainApply r cs = r := by
    intro r hr
    rw [hchar] at hr
    rcases List.mem_append.mp hr with hr | hr
    · obtain ⟨e, _, rfl⟩ := List.mem_map.mp hr
      exact chainApply_idem cs e
    · exact (appendedNew_props cs _ r hr).1
  rw [List.map_congr_left hfix]
  simp

/-- **C5.** For every status and argument list of `SetConditions`, supplied
conditions are applied left to right: the resulting status's condition of a
type `t` occurring in the arguments is `Equal` (ignoring timestamp) to the
last argument of type `t`, and is an entry that was left in place (a member
of the prior status or of the argument list, so an `Equal` earlier entry's
`LastTransitionTime` is preserved); and `SetConditions` is idempotent — the
second application changes nothing at all. -/
theorem claim_C5_last_wins_idempotent (s : ConditionedStatus) (cs : List Condition)
    (t : ConditionType) (cL : Condition) (hlast : lastOfType t cs = some cL) :
    ((s.SetConditions cs).GetCondition t).Equal cL = true ∧
    ((s.SetConditions cs).GetCondition t ∈ s.conditions ∨
      (s.SetConditions cs).GetCondition t ∈ cs) ∧
    (s.SetConditions cs).SetConditions cs = s.SetConditions cs := by
  have hchar := setConditions_foldl_eq cs s.conditions
  have hR : (s.SetConditions cs).conditions = cs.foldl setConditionsStep s.conditions :=
    rfl
  obtain ⟨hLmem, hLty⟩ := lastOfType_mem hlast
  have htmem : t ∈ (s.SetConditions cs).conditions.map (fun x => x.type) := by
    rw [hR, hchar, List.map_append, types_map_chainApply]
    rcases mem_types_appendedNew cs (s.conditions.map (fun x => x.type)) cL hLmem
      with h | h
    · exact List.mem_append.mpr (Or.inl (hLty ▸ h))
    · exact List.mem_append.mpr (Or.inr (hLty ▸ h))
  obtain ⟨g, hg, hgt⟩ := List.mem_map.mp htmem
  have hsome : ((s.SetConditions cs).conditions.find? (fun c => c.type == t)).isSome := by
    rw [List.find?_isSome]
    exact ⟨g, hg, by simp [hgt]⟩
  obtain ⟨f, hf⟩ := Option.isSome_iff_exists.mp hsome
  have hget : (s.SetConditions cs).GetCondition t = f := by
    unfold ConditionedStatus.GetCondition
    rw [hf]
  have hfmem : f ∈ (s.SetConditions cs).conditions := List.mem_of_find?_eq_some hf
  have hft : f.type = t := by simpa using List.find?_some hf
  have hfR : f ∈ s.conditions.map (fun e => chainApply e cs) ++
      appendedNew (s.conditions.map (fun c => c.type)) cs := by
    rw [hR, hchar] at hfmem
    exact hfmem
  refine ⟨?_, ?_, ?_⟩
  · rw [hget]
    rcases List.mem_append.mp hfR with hfm | hfm
    · obtain ⟨e, _, rfl⟩ := List.mem_map.mp hfm
      have : e.type = t := by rw [← chainApply_type cs e]; exact hft
      exact chainApply_Equal_last cs hlast this
    · exact appendedNew_Equal_last cs _ f hfm (hft ▸ hlast)
  · rw [hget]
    rcases List.mem_append.mp hfR with hfm | hfm
    · obtain ⟨e, he, rfl⟩ := List.mem_map.mp hfm
      rcases List.mem_cons.mp (chainApply_mem cs e) with h | h
      · exact Or.inl (by rw [h]; exact he)
      · exact Or.inr h
    · exact Or.inr (appendedNew_mem cs _ f hfm)
  · show ConditionedStatus.mk _ = ConditionedStatus.mk _
    rw [hR]
    exact congrArg ConditionedStatus.mk (setConditionsFold_idem cs s.conditions)

/-- Witness for C5 at concrete inputs: starting from an empty status and
supplying two `Ready` conditions in one call, the second one wins and the
call is idempotent. -/
theorem claim_C5_witness :
    ((ConditionedStatus.SetConditions ⟨[]⟩
        [Condition.mk "Ready" "False" 0 1 "Creating" "",
         Condition.mk "Ready" "True" 0 2 "Available" ""]).GetCondition
          "Ready").Equal (Condition.mk "Ready" "True" 0 2 "Available" "") = true ∧
    ((ConditionedStatus.SetConditions ⟨[]⟩
        [Condition.mk "Ready" "False" 0 1 "Creating" "",
         Condition.mk "Ready" "True" 0 2 "Available" ""]).GetCondition "Ready" ∈
          (⟨[]⟩ : ConditionedStatus).conditions ∨
      (ConditionedStatus.SetConditions ⟨[]⟩
        [Condition.mk "Ready" "False" 0 1 "Creating" "",
         Condition.mk "Ready" "True" 0 2 "Available" ""]).GetCondition "Ready" ∈
          [Condition.mk "Ready" "False" 0 1 "Creating" "",
           Condition.mk "Ready" "True" 0 2 "Available" ""]) ∧
    (ConditionedStatus.SetConditions ⟨[]⟩
        [Condition.mk "Ready" "False" 0 1 "Creating" "",
         Condition.mk "Ready" "True" 0 2 "Available" ""]).SetConditions
          [Condition.mk "Ready" "False" 0 1 "Creating" "",
           Condition.mk "Ready" "True" 0 2 "Available" ""] =
      ConditionedStatus.SetConditions ⟨[]⟩
        [Condition.mk "Ready" "False" 0 1 "Creating" "",
         Condition.mk "Ready" "True" 0 2 "Available" ""] :=
  claim_C5_last_wins_idempotent ⟨[]⟩
    [Condition.mk "Ready" "False" 0 1 "Creating" "",
     Condition.mk "Ready" "True" 0 2 "Available" ""]
    "Ready" (Condition.mk "Ready" "True" 0 2 "Available" "") (by decide)

/-! ## Status-level equality (claim C4) -/

/-- Spec-side definition, following the specification's words: two condition
lists hold identical multisets of conditions, where condition equality
ignores `LastTransitionTime` (i.e. compares `Condition.key`). -/
def MultisetEqualIgnoringTime (a b : List Condition) : Prop :=
  (a.map Condition.key).Perm (b.map Condition.key)

instance (a b : List Condition) : Decidable (MultisetEqualIgnoringTime a b) := by
  unfold MultisetEqualIgnoringTime
  infer_instance

instance : IsTotal Condition (fun a b => a.type ≤ b.type) :=
  ⟨fun a b => le_total a.type b.type⟩

instance : IsTrans Condition (fun a b => a.type ≤ b.type) :=
  ⟨fun _ _ _ h₁ h₂ => le_trans h₁ h₂⟩

instance : IsAntisymm Condition (fun a b => a.type < b.type) :=
  ⟨fun _ _ h h' => absurd (h.trans h') (lt_irrefl _)⟩

instance : IsAntisymm (ConditionType × ConditionStatus × ConditionReason × String × Int)
    (fun k l => k.1 < l.1) :=
  ⟨fun _ _ h h' => absurd (h.trans h') (lt_irrefl _)⟩

theorem sortByType_perm (l : List Condition) : (sortByType l).Perm l :=
  List.perm_insertionSort _ l

theorem sortByType_sorted (l : List Condition) :
    List.Sorted (fun a b : Condition => a.type ≤ b.type) (sortByType l) :=
  List.sorted_insertionSort _ l

theorem Condition.Equal_comm (c d : Condition) : c.Equal d = d.Equal c := by
  by_cases h : c.Equal d = true
  · rw [h, Condition.Equal_symm h]
  · have hf : c.Equal d = false := by
      cases hcd : c.Equal d
      · rfl
      · exact absurd hcd h
    have h' : d.Equal c = false := by
      cases hdc : d.Equal c
      · rfl
      · exact absurd (Condition.Equal_symm hdc) h
    rw [hf, h']

theorem condListEqual_refl : ∀ l : List Condition, condListEqual l l = true := by
  intro l
  induction l with
  | nil => rfl
  | cons c rest ih => simp [condListEqual, Condition.Equal_refl, ih]

theorem condListEqual_comm :
    ∀ l₁ l₂ : List Condition, condListEqual l₁ l₂ = condListEqual l₂ l₁ := by
  intro l₁
  induction l₁ with
  | nil => intro l₂; cases l₂ <;> rfl
  | cons a as ih =>
      intro l₂
      cases l₂ with
      | nil => rfl
      | cons b bs => simp [condListEqual, Condition.Equal_comm a b, ih bs]

theorem condListEqual_true_iff :
    ∀ l₁ l₂ : List Condition,
      condListEqual l₁ l₂ = true ↔ l₁.map Condition.key = l₂.map Condition.key := by
  intro l₁
  induction l₁ with
  | nil => intro l₂; cases l₂ <;> simp [condListEqual]
  | cons a as ih =>
      intro l₂
      cases l₂ with
      | nil => simp [condListEqual]
      | cons b bs =>
          simp [condListEqual, Condition.Equal_iff_key, ih bs]

/-- A sorted list whose types are pairwise distinct is strictly sorted. -/
theorem sorted_strict_of_nodupTypes {l : List Condition}
    (hs : List.Sorted (fun a b : Condition => a.type ≤ b.type) l)
    (hn : NodupTypes l) :
    List.Pairwise (fun a b : Condition => a.type < b.type) l := by
  have hnd : List.Pairwise (fun a b : Condition => a.type ≠ b.type) l :=
    List.pairwise_map.mp hn
  exact (List.Pairwise.and hs hnd).imp (fun h => lt_of_le_of_ne h.1 h.2)

theorem NodupTypes.sortByType {l : List Condition} (h : NodupTypes l) :
    NodupTypes (sortByType l) := by
  unfold NodupTypes at h ⊢
  exact (((sortByType_perm l).map (fun c => c.type)).nodup_iff).mpr h

/-- Under the at-most-one-per-type invariant, key-multiset-equal lists have
identical sorted key sequences. -/
theorem map_key_sort_eq_of_perm_nodup {a b : List Condition}
    (hna : NodupTypes a) (hnb : NodupTypes b)
    (hperm : (a.map Condition.key).Perm (b.map Condition.key)) :
    (sortByType a).map Condition.key = (sortByType b).map Condition.key := by
  have hp : ((sortByType a).map Condition.key).Perm ((sortByType b).map Condition.key) :=
    (((sortByType_perm a).map Condition.key).trans hperm).trans
      ((sortByType_perm b).map Condition.key).symm
  have hsa : List.Pairwise
      (fun k l : ConditionType × ConditionStatus × ConditionReason × String × Int =>
        k.1 < l.1) ((sortByType a).map Condition.key) := by
    rw [List.pairwise_map]
    exact sorted_strict_of_nodupTypes (sortByType_sorted a) hna.sortByType
  have hsb : List.Pairwise
      (fun k l : ConditionType × ConditionStatus × ConditionReason × String × Int =>
        k.1 < l.1) ((sortByType b).map Condition.key) := by
    rw [List.pairwise_map]
    exact sorted_strict_of_nodupTypes (sortByType_sorted b) hnb.sortByType
  exact List.eq_of_perm_of_sorted hp hsa hsb

/-- Under the invariant, sorting is insensitive to the input's order: any
permutation sorts to the very same list. -/
theorem sortByType_eq_of_perm_nodup {a c : List Condition} (hna : NodupTypes a)
    (hperm : a.Perm c) : sortByType a = sortByType c := by
  have hnc : NodupTypes c := by
    unfold NodupTypes at hna ⊢
    exact ((hperm.map (fun x => x.type)).nodup_iff).mp hna
  have hp : (sortByType a).Perm (sortByType c) :=
    ((sortByType_perm a).trans hperm).trans (sortByType_perm c).symm
  have hsa : List.Pairwise (fun x y : Condition => x.type < y.type) (sortByType a) :=
    sorted_strict_of_nodupTypes (sortByType_sorted a) hna.sortByType
  have hsc : List.Pairwise (fun x y : Condition => x.type < y.type) (sortByType c) :=
    sorted_strict_of_nodupTypes (sortByType_sorted c) hnc.sortByType
  exact List.eq_of_perm_of_sorted hp hsa hsc

theorem orderedInsert_map_key_congr :
    ∀ {l₁ l₂ : List Condition} {x y : Condition}, Condition.key x = Condition.key y →
      l₁.map Condition.key = l₂.map Condition.key →
      (List.orderedInsert (fun a b => a.type ≤ b.type) x l₁).map Condition.key =
        (List.orderedInsert (fun a b => a.type ≤ b.type) y l₂).map Condition.key := by
  intro l₁
  induction l₁ with
  | nil =>
      intro l₂ x y hxy hl
      cases l₂ with
      | nil => simp [hxy]
      | cons b bs => simp at hl
  | cons a as ih =>
      intro l₂ x y hxy hl
      cases l₂ with
      | nil => simp at hl
      | cons b bs =>
          simp only [List.map_cons, List.cons.injEq] at hl
          obtain ⟨hab, hasbs⟩ := hl
          have hxt : x.type = y.type := congrArg (fun k => k.1) hxy
          have hat : a.type = b.type := congrArg (fun k => k.1) hab
          simp only [List.orderedInsert]
          by_cases hle : x.type ≤ a.type
          · rw [if_pos hle, if_pos (by rw [← hxt, ← hat]; exact hle)]
            simp [hxy, hab, hasbs]
          · rw [if_neg hle, if_neg (by rw [← hxt, ← hat]; exact hle)]
            simp only [List.map_cons, hab]
            rw [ih hxy hasbs]

/-- The sort's decisions depend only on the compared keys, so key-identical
lists (e.g. differing only in `LastTransitionTime`) sort identically at the
key level. -/
theorem sortByType_map_key_congr :
    ∀ {l₁ l₂ : List Condition}, l₁.map Condition.key = l₂.map Condition.key →
      (sortByType l₁).map Condition.key = (sortByType l₂).map Condition.key := by
  intro l₁
  induction l₁ with
  | nil =>
      intro l₂ h
      cases l₂ with
      | nil => rfl
      | cons b bs => simp at h
  | cons a as ih =>
      intro l₂ h
      cases l₂ with
      | nil => simp at h
      | cons b bs =>
          simp only [List.map_cons, List.cons.injEq] at h
          obtain ⟨hab, hasbs⟩ := h
          exact orderedInsert_map_key_congr hab (ih hasbs)

theorem condListEqual_congr_key {x₁ y₁ x₂ y₂ : List Condition}
    (hx : x₁.map Condition.key = x₂.map Condition.key)
    (hy : y₁.map Condition.key = y₂.map Condition.key) :
    condListEqual x₁ y₁ = condListEqual x₂ y₂ := by
  have hiff : condListEqual x₁ y₁ = true ↔ condListEqual x₂ y₂ = true := by
    rw [condListEqual_true_iff, condListEqual_true_iff, hx, hy]
  cases h₁ : condListEqual x₁ y₁ with
  | true => exact (hiff.mp h₁).symm
  | false =>
      cases h₂ : condListEqual x₂ y₂ with
      | true => exact absurd (hiff.mpr h₂) (by simp [h₁])
      | false => rfl

/-- Forward direction, invariant not needed: a true `Equal` forces identical
key multisets. -/
theorem multiset_of_statusEqual {a b : ConditionedStatus}
    (h : ConditionedStatus.Equal (some a) (some b) = true) :
    MultisetEqualIgnoringTime a.conditions b.conditions := by
  have h' : (if b.conditions.length != a.conditions.length then false
      else condListEqual (sortByType a.conditions) (sortByType b.conditions)) = true := h
  by_cases hlen : b.conditions.length = a.conditions.length
  · rw [if_neg (by simp [hlen])] at h'
    have hkeys : (sortByType a.conditions).map Condition.key =
        (sortByType b.conditions).map Condition.key :=
      (condListEqual_true_iff _ _).mp h'
    unfold MultisetEqualIgnoringTime
    have p1 : ((sortByType a.conditions).map Condition.key).Perm
        (a.conditions.map Condition.key) :=
      (sortByType_perm a.conditions).map Condition.key
    have p2 : ((sortByType a.conditions).map Condition.key).Perm
        (b.conditions.map Condition.key) := by
      rw [hkeys]
      exact (sortByType_perm b.conditions).map Condition.key
    exact p1.symm.trans p2
  · rw [if_pos (by simp [hlen])] at h'
    exact absurd h' (by simp)

/-- Backward direction under the invariant. -/
theorem statusEqual_of_multiset {a b : ConditionedStatus}
    (hna : NodupTypes a.conditions) (hnb : NodupTypes b.conditions)
    (hm : MultisetEqualIgnoringTime a.conditions b.conditions) :
    ConditionedStatus.Equal (some a) (some b) = true := by
  have hlen : b.conditions.length = a.conditions.length := by
    have := hm.length_eq
    simpa using this.symm
  show (if b.conditions.length != a.conditions.length then false
      else condListEqual (sortByType a.conditions) (sortByType b.conditions)) = true
  rw [if_neg (by simp [hlen])]
  exact (condListEqual_true_iff _ _).mpr (map_key_sort_eq_of_perm_nodup hna hnb hm)

/-- **C4 (amended).** `ConditionedStatus.Equal` is true for two nil statuses
and false when exactly one is nil; it is reflexive and symmetric, and
insensitive to changes restricted to `LastTransitionTime` fields, for all
statuses; and for statuses satisfying the documented at-most-one-per-type
invariant it is true iff the two hold identical multisets of conditions
ignoring `LastTransitionTime`, and is invariant under permutation of a
condition list.  (It operates on copies of the lists — modelled here as a
pure function.)  Without the invariant, the multiset characterization and
permutation invariance fail; see the counterexample. -/
theorem claim_C4_Equal_amended (a b c a2 b2 : ConditionedStatus) :
    ConditionedStatus.Equal none none = true ∧
    ConditionedStatus.Equal none (some a) = false ∧
    ConditionedStatus.Equal (some a) none = false ∧
    ConditionedStatus.Equal (some a) (some a) = true ∧
    ConditionedStatus.Equal (some a) (some b) = ConditionedStatus.Equal (some b) (some a) ∧
    (NodupTypes a.conditions → NodupTypes b.conditions →
      (ConditionedStatus.Equal (some a) (some b) = true ↔
        MultisetEqualIgnoringTime a.conditions b.conditions)) ∧
    (NodupTypes a.conditions → a.conditions.Perm c.conditions →
      ConditionedStatus.Equal (some a) (some b) =
        ConditionedStatus.Equal (some c) (some b)) ∧
    (a.conditions.map Condition.key = a2.conditions.map Condition.key →
      b.conditions.map Condition.key = b2.conditions.map Condition.key →
      ConditionedStatus.Equal (some a) (some b) =
        ConditionedStatus.Equal (some a2) (some b2)) := by
  refine ⟨rfl, rfl, rfl, ?_, ?_, ?_, ?_, ?_⟩
  · show (if a.conditions.length != a.conditions.length then false
        else condListEqual (sortByType a.conditions) (sortByType a.conditions)) = true
    rw [if_neg (by simp)]
    exact condListEqual_refl _
  · show (if b.conditions.length != a.conditions.length then false
        else condListEqual (sortByType a.conditions) (sortByType b.conditions)) =
      (if a.conditions.length != b.conditions.length then false
        else condListEqual (sortByType b.conditions) (sortByType a.conditions))
    by_cases hlen : a.conditions.length = b.conditions.length
    · rw [if_neg (by simp [hlen]), if_neg (by simp [hlen])]
      exact condListEqual_comm _ _
    · rw [if_pos (by simp only [bne_iff_ne, ne_eq]; exact fun h => hlen h.symm),
        if_pos (by simp only [bne_iff_ne, ne_eq]; exact hlen)]
  · intro hna hnb
    exact ⟨multiset_of_statusEqual, statusEqual_of_multiset hna hnb⟩
  · intro hna hperm
    have hsort : sortByType a.conditions = sortByType c.conditions :=
      sortByType_eq_of_perm_nodup hna hperm
    have hlen : a.conditions.length = c.conditions.length := hperm.length_eq
    show (if b.conditions.length != a.conditions.length then false
        else condListEqual (sortByType a.conditions) (sortByType b.conditions)) =
      (if b.conditions.length != c.conditions.length then false
        else condListEqual (sortByType c.conditions) (sortByType b.conditions))
    rw [hsort, hlen]
  · intro ha hb
    have hla : a.conditions.length = a2.conditions.length := by
      have := congrArg List.length ha
      simpa using this
    have hlb : b.conditions.length = b2.conditions.length := by
      have := congrArg List.length hb
      simpa using this
    show (if b.conditions.length != a.conditions.length then false
        else condListEqual (sortByType a.conditions) (sortByType b.conditions)) =
      (if b2.conditions.length != a2.conditions.length then false
        else condListEqual (sortByType a2.conditions) (sortByType b2.conditions))
    rw [hla, hlb,
      condListEqual_congr_key (sortByType_map_key_congr ha) (sortByType_map_key_congr hb)]

/-- **C4 counterexample.** On condition lists that violate the documented
at-most-one-per-type invariant, `ConditionedStatus.Equal` is *not* multiset
equality and is *not* permutation invariant: the two lists below hold the
same two type-`"A"` conditions in opposite orders (identical multisets, and
each is `Equal` to itself), yet `Equal` between them returns false, because
sorting by type leaves the tied entries in their original positions and the
pairwise comparison then mismatches. -/
theorem claim_C4_counterexample :
    MultisetEqualIgnoringTime
      [Condition.mk "A" "True" 0 0 "" "", Condition.mk "A" "False" 0 0 "" ""]
      [Condition.mk "A" "False" 0 0 "" "", Condition.mk "A" "True" 0 0 "" ""] ∧
    List.Perm
      [Condition.mk "A" "True" 0 0 "" "", Condition.mk "A" "False" 0 0 "" ""]
      [Condition.mk "A" "False" 0 0 "" "", Condition.mk "A" "True" 0 0 "" ""] ∧
    ConditionedStatus.Equal
      (some ⟨[Condition.mk "A" "True" 0 0 "" "", Condition.mk "A" "False" 0 0 "" ""]⟩)
      (some ⟨[Condition.mk "A" "True" 0 0 "" "", Condition.mk "A" "False" 0 0 "" ""]⟩)
      = true ∧
    ConditionedStatus.Equal
      (some ⟨[Condition.mk "A" "True" 0 0 "" "", Condition.mk "A" "False" 0 0 "" ""]⟩)
      (some ⟨[Condition.mk "A" "False" 0 0 "" "", Condition.mk "A" "True" 0 0 "" ""]⟩)
      = false := by
  refine ⟨by decide, by decide, ?_, ?_⟩
  · show (if ([Condition.mk "A" "True" 0 0 "" "",
          Condition.mk "A" "False" 0 0 "" ""] : List Condition).length !=
        ([Condition.mk "A" "True" 0 0 "" "",
          Condition.mk "A" "False" 0 0 "" ""] : List Condition).length then false
      else condListEqual
        (sortByType [Condition.mk "A" "True" 0 0 "" "", Condition.mk "A" "False" 0 0 "" ""])
        (sortByType [Condition.mk "A" "True" 0 0 "" "", Condition.mk "A" "False" 0 0 "" ""]))
      = true
    simp [sortByType, List.insertionSort, List.orderedInsert, condListEqual,
      Condition.Equal]
  · show (if ([Condition.mk "A" "False" 0 0 "" "",
          Condition.mk "A" "True" 0 0 "" ""] : List Condition).length !=
        ([Condition.mk "A" "True" 0 0 "" "",
          Condition.mk "A" "False" 0 0 "" ""] : List Condition).length then false
      else condListEqual
        (sortByType [Condition.mk "A" "True" 0 0 "" "", Condition.mk "A" "False" 0 0 "" ""])
        (sortByType [Condition.mk "A" "False" 0 0 "" "", Condition.mk "A" "True" 0 0 "" ""]))
      = false
    simp [sortByType, List.insertionSort, List.orderedInsert, condListEqual,
      Condition.Equal]

/-- Witness for the amended C4 at concrete inputs: two-condition statuses with
distinct types, one a permutation and one a timestamp-only variation. -/
theorem claim_C4_witness :
    (ConditionedStatus.Equal
        (some ⟨[Condition.mk "A" "True" 0 1 "R1" "", Condition.mk "B" "False" 0 1 "R2" ""]⟩)
        (some ⟨[Condition.mk "A" "True" 0 2 "R1" "", Condition.mk "B" "False" 0 2 "R2" ""]⟩)
        = true ↔
      MultisetEqualIgnoringTime
        [Condition.mk "A" "True" 0 1 "R1" "", Condition.mk "B" "False" 0 1 "R2" ""]
        [Condition.mk "A" "True" 0 2 "R1" "", Condition.mk "B" "False" 0 2 "R2" ""]) ∧
    ConditionedStatus.Equal
        (some ⟨[Condition.mk "A" "True" 0 1 "R1" "", Condition.mk "B" "False" 0 1 "R2" ""]⟩)
        (some ⟨[Condition.mk "A" "True" 0 2 "R1" "", Condition.mk "B" "False" 0 2 "R2" ""]⟩) =
      ConditionedStatus.Equal
        (some ⟨[Condition.mk "B" "False" 0 1 "R2" "", Condition.mk "A" "True" 0 1 "R1" ""]⟩)
        (some ⟨[Condition.mk "A" "True" 0 2 "R1" "", Condition.mk "B" "False" 0 2 "R2" ""]⟩) ∧
    ConditionedStatus.Equal
        (some ⟨[Condition.mk "A" "True" 0 1 "R1" "", Condition.mk "B" "False" 0 1 "R2" ""]⟩)
        (some ⟨[Condition.mk "A" "True" 0 2 "R1" "", Condition.mk "B" "False" 0 2 "R2" ""]⟩) =
      ConditionedStatus.Equal
        (some ⟨[Condition.mk "A" "True" 0 2 "R1" "", Condition.mk "B" "False" 0 2 "R2" ""]⟩)
        (some ⟨[Condition.mk "A" "True" 0 1 "R1" "", Condition.mk "B" "False" 0 1 "R2" ""]⟩) :=
  ⟨(claim_C4_Equal_amended
      ⟨[Condition.mk "A" "True" 0 1 "R1" "", Condition.mk "B" "False" 0 1 "R2" ""]⟩
      ⟨[Condition.mk "A" "True" 0 2 "R1" "", Condition.mk "B" "False" 0 2 "R2" ""]⟩
      ⟨[Condition.mk "B" "False" 0 1 "R2" "", Condition.mk "A" "True" 0 1 "R1" ""]⟩
      ⟨[Condition.mk "A" "True" 0 2 "R1" "", Condition.mk "B" "False" 0 2 "R2" ""]⟩
      ⟨[Condition.mk "A" "True" 0 1 "R1" "", Condition.mk "B" "False" 0 1 "R2" ""]⟩).2.2.2.2.2.1
      (by decide) (by decide),
   (claim_C4_Equal_amended
      ⟨[Condition.mk "A" "True" 0 1 "R1" "", Condition.mk "B" "False" 0 1 "R2" ""]⟩
      ⟨[Condition.mk "A" "True" 0 2 "R1" "", Condition.mk "B" "False" 0 2 "R2" ""]⟩
      ⟨[Condition.mk "B" "False" 0 1 "R2" "", Condition.mk "A" "True" 0 1 "R1" ""]⟩
      ⟨[Condition.mk "A" "True" 0 2 "R1" "", Condition.mk "B" "False" 0 2 "R2" ""]⟩
      ⟨[Condition.mk "A" "True" 0 1 "R1" "", Condition.mk "B" "False" 0 1 "R2" ""]⟩).2.2.2.2.2.2.1
      (by decide) (by decide),
   (claim_C4_Equal_amended
      ⟨[Condition.mk "A" "True" 0 1 "R1" "", Condition.mk "B" "False" 0 1 "R2" ""]⟩
      ⟨[Condition.mk "A" "True" 0 2 "R1" "", Condition.mk "B" "False" 0 2 "R2" ""]⟩
      ⟨[Condition.mk "B" "False" 0 1 "R2" "", Condition.mk "A" "True" 0 1 "R1" ""]⟩
      ⟨[Condition.mk "A" "True" 0 2 "R1" "", Condition.mk "B" "False" 0 2 "R2" ""]⟩
      ⟨[Condition.mk "A" "True" 0 1 "R1" "", Condition.mk "B" "False" 0 1 "R2" ""]⟩).2.2.2.2.2.2.2
      (by decide) (by decide)⟩
